import Mathlib

/-!
# Verification of the KETI-CT-GUI protocol core

A shallow embedding of the MUP1 framer/deframer (`MUP1Protocol` in the
repository) and the CoAP client (`src/lib/coap-client.js`), with theorems
settling the testable properties stated in the specification.

Bytes are modelled as `Nat` (with explicit `% 256` or `< 256` hypotheses
where JavaScript `Buffer` semantics matter), byte strings as `List Nat`,
and JavaScript strings of checksum characters as lists of UTF-16 code
units (also `List Nat`).
-/

/-- Decidable equality for `Except`, used to evaluate the decoder on
concrete frames. -/
instance {ε α : Type} [DecidableEq ε] [DecidableEq α] : DecidableEq (Except ε α) := fun a b => by
  cases a <;> cases b <;>
    first
      | exact .isFalse (fun h => Except.noConfusion h)
      | exact decidable_of_iff _ (iff_of_eq (Except.error.injEq _ _)).symm
      | exact decidable_of_iff _ (iff_of_eq (Except.ok.injEq _ _)).symm

namespace KetiCt

/-! ## MUP1 protocol constants and escape tables (`MUP1Protocol`) -/

/-- `needsEscape(byte)`: bytes that must be escaped inside a payload. -/
def needsEscape (b : Nat) : Bool :=
  b == 0x00 || b == 0xFF || b == 0x3E || b == 0x3C || b == 0x5C

/-- `ESCAPE_MAP`: the byte written after the escape character `0x5C`.
The source object has exactly five keys; the encoder only consults it for
bytes with `needsEscape`, so the default branch is unreachable there. -/
def escapeMap (b : Nat) : Nat :=
  if b = 0x00 then 0x30
  else if b = 0xFF then 0x46
  else if b = 0x3E then 0x3E
  else if b = 0x3C then 0x3C
  else if b = 0x5C then 0x5C
  else 0

/-- `UNESCAPE_MAP`: partial map used by the decoder as `UNESCAPE_MAP[byte] ?? byte`. -/
def unescapeMap (b : Nat) : Option Nat :=
  if b = 0x30 then some 0x00
  else if b = 0x46 then some 0xFF
  else if b = 0x3E then some 0x3E
  else if b = 0x3C then some 0x3C
  else if b = 0x5C then some 0x5C
  else none

/-- The payload-escaping loop of `encodeFrame` (step 3 of the source). -/
def escapeBytes : List Nat → List Nat
  | [] => []
  | b :: r => if needsEscape b then 0x5C :: escapeMap b :: escapeBytes r
              else b :: escapeBytes r

/-! ## Checksum (`MUP1Protocol.calculateChecksum`) -/

/-- The summation loop of `calculateChecksum`: bytes are consumed two at a
time as `(data[i] << 8) | data[i+1]`, an odd trailing byte as `data[i] << 8`. -/
def sumWordsSrc : List Nat → Nat
  | [] => 0
  | [b] => b <<< 8
  | b1 :: b2 :: r => ((b1 <<< 8) ||| b2) + sumWordsSrc r

/-- JavaScript `ToInt32`: the operand of `>>`, `&` and `~` is wrapped to
a signed 32-bit value in `[-2^31, 2^31)` (`%` on `Int` is Euclidean, with
a non-negative remainder). -/
def toInt32 (s : Int) : Int := (s + 2147483648) % 4294967296 - 2147483648

/-- JavaScript `sum >> 16`: arithmetic right shift of the wrapped 32-bit
value — floor division, which Euclidean `/` gives for a positive
divisor. -/
def jsShr16 (s : Int) : Int := toInt32 s / 65536

/-- JavaScript `sum & 0xFFFF`: the low 16 bits of the wrapped 32-bit
value, non-negative. -/
def jsAnd16 (s : Int) : Int := toInt32 s % 65536

/-- The carry-folding loop
`while (sum >> 16) sum = (sum & 0xFFFF) + (sum >> 16)` with JavaScript's
32-bit coercions, written with a fuel argument so that it reduces by
`decide`/`rfl`. -/
def foldCarryJSF : Nat → Int → Int
  | 0, s => s
  | f + 1, s => if jsShr16 s = 0 then s else foldCarryJSF f (jsAnd16 s + jsShr16 s)

/-- The carry-folding loop of the source.  Four iterations always reach
the loop's exit: after one step the accumulator lies in
`[-32768, 98302]`, after one more in `[0, 65535]`, where `sum >> 16` is
zero — `foldCarryJSF_fuel` proves that additional fuel never changes the
value, so this is the loop's true result. -/
def foldCarryJS (s : Int) : Int := foldCarryJSF 4 s

/-- JavaScript `(~sum) & 0xFFFF` as a 16-bit natural number (`~` also
coerces through `ToInt32`). -/
def jsNot16 (s : Int) : Nat := ((-(toInt32 s) - 1) % 65536).toNat

/-- `calculateChecksum`: run the summation loop (exact — JavaScript
number arithmetic is exact up to `2^53`, far beyond any `Buffer`'s word
sum), fold the carries with the source's 32-bit-coercing loop, and
return `(~sum) & 0xFFFF`. -/
def calculateChecksum (data : List Nat) : Nat :=
  jsNot16 (foldCarryJS (sumWordsSrc data : Int))

/-- The idealized carry fold as the specification words it ("carries
above bit 15 are folded back by addition until none remain"), on
unbounded naturals, with a fuel argument; the initial value is always
enough fuel because every iteration strictly decreases the
accumulator. -/
def foldCarryF : Nat → Nat → Nat
  | 0, s => s
  | f + 1, s => if s / 65536 = 0 then s else foldCarryF f (s % 65536 + s / 65536)

/-- The specification's carry fold with sufficient fuel. -/
def foldCarry (s : Nat) : Nat := foldCarryF s s

/-- One hex digit as an uppercase ASCII code, as produced by
`toString(16).toUpperCase()`. -/
def hexDigitChar (d : Nat) : Nat := if d < 10 then 48 + d else 55 + d

/-- The four checksum characters appended by the encoder:
`checksum.toString(16).toUpperCase().padStart(4, '0')` for a 16-bit value. -/
def hex4 (n : Nat) : List Nat :=
  [hexDigitChar (n / 4096 % 16), hexDigitChar (n / 256 % 16),
   hexDigitChar (n / 16 % 16), hexDigitChar (n % 16)]

/-! ## Frame encoding (`MUP1Protocol.encodeFrame`) -/

/-- The pre-checksum part of an encoded frame: SOF, type, escaped payload,
EOF, and a second EOF when the byte count so far is even. -/
def preFrame (type : Nat) (data : List Nat) : List Nat :=
  let f := 0x3E :: type :: (escapeBytes data ++ [0x3C])
  if f.length % 2 == 0 then f ++ [0x3C] else f

/-- `encodeFrame(type, data)`: pre-checksum bytes followed by the four
uppercase-hex ASCII characters of their checksum. -/
def encodeFrame (type : Nat) (data : List Nat) : List Nat :=
  preFrame type data ++ hex4 (calculateChecksum (preFrame type data))

/-! ## Frame decoding (`MUP1Protocol.decodeFrame`) -/

/-- Result record of `decodeFrame`; `type` is the raw type byte (the source
converts it with `String.fromCharCode`), `checksum` the four provided
checksum characters as code units. -/
structure DecodedFrame where
  type : Nat
  data : List Nat
  checksum : List Nat
  valid : Bool
deriving DecidableEq

/-- The two exceptions `decodeFrame` can throw. -/
inductive FrameError where
  | frameTooShort
  | badSof
deriving DecidableEq

/-- Index of the first occurrence of `v` in `l`, if any. -/
def findIdxFrom (v : Nat) : List Nat → Option Nat
  | [] => none
  | b :: r => if b = v then some 0 else (findIdxFrom v r).map (· + 1)

/-- JavaScript `buffer.indexOf(v, start)` (as an `Option` instead of `-1`). -/
def indexOfFrom (l : List Nat) (start v : Nat) : Option Nat :=
  (findIdxFrom v (l.drop start)).map (· + start)

/-- The payload-decoding loop of `decodeFrame`: note the source tests
`byte === EOF` before consulting the `escaping` flag, so any `0x3C`
terminates the walk, escaped or not. -/
def walkPayload : List Nat → Bool → List Nat
  | [], _ => []
  | b :: r, esc =>
    if b = 0x3C then []
    else if esc then (unescapeMap b).getD b :: walkPayload r false
    else if b = 0x5C then walkPayload r true
    else b :: walkPayload r false

/-- ASCII upper-casing as applied by `toUpperCase()` on the checksum text. -/
def upperAscii (b : Nat) : Nat := if 97 ≤ b ∧ b ≤ 122 then b - 32 else b

/-- `decodeFrame(buffer)`.  `buffer.toString('ascii', a, a+4)` masks each
byte with `0x7F`; `buffer[i]` out of range is `undefined`, which compares
unequal to `EOF` and is modelled by the default `0` of `getD`.  When
`indexOf` finds no EOF it returns `-1` in the source; the `none` branch
below spells out the resulting accesses at indices `-1 + 1 = 0` etc. -/
def decodeFrame (buf : List Nat) : Except FrameError DecodedFrame :=
  if buf.length < 8 then .error .frameTooShort
  else if buf.getD 0 0 ≠ 0x3E then .error .badSof
  else
    let data := walkPayload ((buf.take (buf.length - 4)).drop 2) false
    match indexOfFrom buf 2 0x3C with
    | some fe =>
      let hasD := buf.getD (fe + 1) 0 == 0x3C
      let cs := if hasD then fe + 2 else fe + 1
      let provided := ((buf.drop cs).take 4).map (fun b => upperAscii (b % 128))
      let forCk := buf.take (if hasD then fe + 2 else fe + 1)
      .ok ⟨buf.getD 1 0, data, provided,
           provided == hex4 (calculateChecksum forCk)⟩
    | none =>
      let hasD := buf.getD 0 0 == 0x3C
      let cs := if hasD then 1 else 0
      let provided := ((buf.drop cs).take 4).map (fun b => upperAscii (b % 128))
      let forCk := buf.take (if hasD then 1 else 0)
      .ok ⟨buf.getD 1 0, data, provided,
           provided == hex4 (calculateChecksum forCk)⟩

/-! ## CoAP client: message-ID generation (`CoAPClient.request`) -/

/-- The counter update in `request()`:
`this.messageId++` followed by `if (this.messageId > 0xFFFF) this.messageId = 1`. -/
def wrapMid (m : Nat) : Nat := if m + 1 > 0xFFFF then 1 else m + 1

/-- Message-ID acquisition as performed by `request()`: the assigned ID is
the current counter and the counter is stepped.  The map of pending
requests is in scope in the source (`this.pendingRequests`) but is not
consulted. -/
def acquireMid (pending : List Nat) (counter : Nat) : Nat × Nat :=
  (counter, wrapMid counter)

/-- The message ID assigned to the `n`-th sequential request when the
counter was initialised to `m0` (the source initialises it to
`Math.floor(Math.random() * 0xFFFF)`, a value in `[0, 0xFFFE]`). -/
def midAt (m0 : Nat) : Nat → Nat
  | 0 => m0
  | n + 1 => wrapMid (midAt m0 n)

/-! ## CoAP client: response parsing (`CoAPClient.parseResponse`) -/

/-- `RESPONSE_CODES` (RFC 7252 Section 12.1.2), as in the source. -/
def RESPONSE_CODES (c : Nat) : Option String :=
  match c with
  | 65 => some ("2.01 Created")
  | 66 => some ("2.02 Deleted")
  | 67 => some ("2.03 Valid")
  | 68 => some ("2.04 Changed")
  | 69 => some ("2.05 Content")
  | 95 => some ("2.31 Continue")
  | 128 => some ("4.00 Bad Request")
  | 129 => some ("4.01 Unauthorized")
  | 130 => some ("4.02 Bad Option")
  | 131 => some ("4.03 Forbidden")
  | 132 => some ("4.04 Not Found")
  | 133 => some ("4.05 Method Not Allowed")
  | 134 => some ("4.06 Not Acceptable")
  | 140 => some ("4.12 Precondition Failed")
  | 141 => some ("4.13 Request Entity Too Large")
  | 143 => some ("4.15 Unsupported Content-Format")
  | 160 => some ("5.00 Internal Server Error")
  | 161 => some ("5.01 Not Implemented")
  | 162 => some ("5.02 Bad Gateway")
  | 163 => some ("5.03 Service Unavailable")
  | 164 => some ("5.04 Gateway Timeout")
  | 165 => some ("5.05 Proxying Not Supported")
  | _ => none

/-- JavaScript `String(n).padStart(2, '0')` for the detail digits. -/
def padTwo (s : String) : String :=
  if s.length ≥ 2 then s else if s.length = 1 then ("0") ++ s else ("00")

/-- The fallback code name `` `${Math.floor(code / 32)}.${String(code % 32).padStart(2, '0')}` ``. -/
def fmtCD (c : Nat) : String :=
  Nat.repr (c / 32) ++ (".") ++ padTwo (Nat.repr (c % 32))

/-- Result record of `parseResponse`.  The payload is `none` when no
`0xFF` marker is found (or nothing follows it); otherwise `Sum.inl` holds
the value produced by the external CBOR decoder and `Sum.inr` the raw
bytes returned when that decoder throws. -/
structure CoapResp (α : Type) where
  version : Nat
  type : Nat
  code : Nat
  messageId : Nat
  payload : Option (α ⊕ List Nat)
  codeClass : Nat
  codeName : String
deriving DecidableEq

/-- The exception thrown by `parseResponse`. -/
inductive CoapParseError where
  | messageTooShort
deriving DecidableEq

/-- `parseResponse(data)`, parameterised by the external CBOR decoder
(`cbor-x`'s `decode`, a black box per the specification); `dec` returns
`none` where the library would throw. -/
def parseResponse {α : Type} (dec : List Nat → Option α) (data : List Nat) :
    Except CoapParseError (CoapResp α) :=
  if data.length < 4 then .error .messageTooShort
  else
    let d0 := data.getD 0 0
    let code := data.getD 1 0
    let tkl := d0 % 16
    let offset := 4 + tkl
    let payloadStart :=
      match findIdxFrom 255 (data.drop offset) with
      | some j => offset + j + 1
      | none => data.length
    let payload :=
      if payloadStart < data.length then
        some (match dec (data.drop payloadStart) with
              | some v => Sum.inl v
              | none => Sum.inr (data.drop payloadStart))
      else none
    .ok { version := d0 / 64 % 4
          type := d0 / 16 % 4
          code := code
          messageId := (data.getD 2 0) <<< 8 ||| data.getD 3 0
          payload := payload
          codeClass := code / 32
          codeName := (RESPONSE_CODES code).getD (fmtCD code) }

/-! ## CoAP client: response dispatch (`CoAPClient.handleCoapResponse`) -/

/-- Observable effect of `handleCoapResponse`: parse failure (logged),
unknown message ID (logged and dropped), or settling the pending entry
found under the parsed message ID — resolution with the payload on a
`2.xx` code, rejection with the code, code name and payload otherwise.
The settled entry is carried in the event; cancelling its timer is part
of settling it. -/
inductive CoapEvent (α ε : Type) where
  | parseError
  | unknownMid (mid : Nat)
  | resolved (mid : Nat) (entry : ε) (payload : Option (α ⊕ List Nat))
  | rejected (mid : Nat) (entry : ε) (code : Nat) (codeName : String)
      (payload : Option (α ⊕ List Nat))
deriving DecidableEq

/-- `handleCoapResponse(data)` acting on the pending-request map (a
`Map` keyed by message ID, modelled as an association list): looks up the
parsed message ID, and on a hit deletes the entry and settles its waiter
according to the code class. -/
def handleCoapResponse {α ε : Type} (dec : List Nat → Option α)
    (pending : List (Nat × ε)) (data : List Nat) :
    List (Nat × ε) × CoapEvent α ε :=
  match parseResponse dec data with
  | .error _ => (pending, .parseError)
  | .ok r =>
    match pending.lookup r.messageId with
    | none => (pending, .unknownMid r.messageId)
    | some ent =>
      let rest := pending.filter (fun p => p.1 != r.messageId)
      if r.codeClass = 2 then (rest, .resolved r.messageId ent r.payload)
      else (rest, .rejected r.messageId ent r.code r.codeName r.payload)

/-! ## CoAP client: option and message building (`CoAPClient.buildMessage`,
`CoAPClient.encodeOptions`, `CoAPClient.encodeOptionHeader`) -/

/-- JavaScript `String.prototype.split` on a one-character separator
(strings as lists of UTF-16 code units). -/
def splitOnByte (sep : Nat) : List Nat → List (List Nat)
  | [] => [[]]
  | b :: rest =>
    match splitOnByte sep rest with
    | [] => []
    | cur :: parts => if b = sep then [] :: cur :: parts else (b :: cur) :: parts

/-- `encodeOptionHeader(delta, length)`: the first byte is
`(deltaValue << 4) | lengthValue` (both nibbles below 16, so the `|` is
addition), followed by the extended delta byte(s) when `13 ≤ delta`
(`delta − 13`, or big-endian `delta − 269` for `269 ≤ delta`), then the
extended length byte(s) under the same rule. -/
def encodeOptionHeader (delta len : Nat) : List Nat :=
  ((if delta < 13 then delta else if delta < 269 then 13 else 14) * 16 +
   (if len < 13 then len else if len < 269 then 13 else 14)) ::
  ((if delta < 13 then [] else if delta < 269 then [delta - 13]
    else [(delta - 269) / 256 % 256, (delta - 269) % 256]) ++
   (if len < 13 then [] else if len < 269 then [len - 13]
    else [(len - 269) / 256 % 256, (len - 269) % 256]))

/-- The per-item loops of `encodeOptions`: each item emits an option header
(delta against the previous option number, which becomes `optNum` from the
first item on) followed by its code units. -/
def emitItems (optNum : Nat) : List (List Nat) → Nat → List Nat
  | [], _ => []
  | s :: rest, prev =>
    encodeOptionHeader (optNum - prev) s.length ++ s ++ emitItems optNum rest optNum

/-- `uri.split('?')[0].split('/').filter(s => s)`. -/
def pathSegments (uri : List Nat) : List (List Nat) :=
  let pathPart := (splitOnByte 0x3F uri).headD []
  (splitOnByte 0x2F pathPart).filter (fun s => !s.isEmpty)

/-- `uri.split('?')[1]`, falsy when absent or empty, split on `&` with
empties discarded. -/
def queryItems (uri : List Nat) : List (List Nat) :=
  match (splitOnByte 0x3F uri).get? 1 with
  | none => []
  | some q => if q.isEmpty then [] else (splitOnByte 0x26 q).filter (fun s => !s.isEmpty)

/-- `encodeOptions(uri)`: Uri-Path options (11) per segment, a single
Content-Format option (12) with the two bytes `01 04` (260), then
Uri-Query options (15); `prev1` is the previous-option-number state after
the path loop. -/
def encodeOptions (uri : List Nat) : List Nat :=
  let segs := pathSegments uri
  let prev1 := if segs.isEmpty then 0 else 11
  emitItems 11 segs 0 ++ (encodeOptionHeader (12 - prev1) 2 ++ [1, 4]) ++
    emitItems 15 (queryItems uri) 12

/-- `buildMessage(methodCode, uri, payload, messageId)`: header byte
`(1 << 6) | (0 << 4) | 0 = 0x40`, the method code, the big-endian
message ID, the options, and `0xFF` plus the payload bytes when a payload
is present (already CBOR-encoded; `Buffer.from` truncates every entry to
a byte). -/
def buildMessage (methodCode : Nat) (uri : List Nat) (payload : Option (List Nat))
    (messageId : Nat) : List Nat :=
  ((64 :: methodCode :: messageId / 256 % 256 :: messageId % 256 :: encodeOptions uri) ++
    (match payload with
     | none => []
     | some p => 255 :: p)).map (fun b => b % 256)

/-- Standard CoAP option-stream reading (verifier-side, used to state what
the built option bytes carry): each step reads the delta/length nibbles,
their extended forms, and the value bytes, and yields the absolute option
number with the value.  The fuel decreases once per option; the byte count
is always sufficient fuel. -/
def parseOptsF : Nat → Nat → List Nat → List (Nat × List Nat)
  | 0, _, _ => []
  | _ + 1, _, [] => []
  | f + 1, prev, b :: rest =>
    let dn := b / 16
    let ln := b % 16
    let dext := if dn = 13 then 1 else if dn = 14 then 2 else 0
    let delta := if dn = 13 then rest.getD 0 0 + 13
                 else if dn = 14 then rest.getD 0 0 * 256 + rest.getD 1 0 + 269
                 else dn
    let rest2 := rest.drop dext
    let len := if ln = 13 then rest2.getD 0 0 + 13
               else if ln = 14 then rest2.getD 0 0 * 256 + rest2.getD 1 0 + 269
               else ln
    let lext := if ln = 13 then 1 else if ln = 14 then 2 else 0
    let body := rest2.drop lext
    (prev + delta, body.take len) :: parseOptsF f (prev + delta) (body.drop len)

/-- Option-stream reading with sufficient fuel. -/
def parseOpts (prev : Nat) (bytes : List Nat) : List (Nat × List Nat) :=
  parseOptsF bytes.length prev bytes

/-! ## Stream reassembler (`CoAPClient.handleData`) -/

/-- The `while` loop of `handleData` on the accumulated receive buffer:
find the SOF (clearing the buffer when there is none), discard bytes
before it, wait when fewer than 8 bytes remain, find the EOF at index ≥ 2
(waiting when absent), determine the double-EOF padding and the frame end
`checksumStart + 4`, wait when the buffer is still shorter, otherwise
slice the frame off and continue.  Returns the extracted frame slices and
the remaining buffer. -/
def processBufferF : Nat → List Nat → List (List Nat) × List Nat
  | 0, buf => ([], buf)
  | f + 1, buf =>
    if buf.length = 0 then ([], buf)
    else
      match findIdxFrom 0x3E buf with
      | none => ([], [])
      | some si =>
        let b1 := buf.drop si
        if b1.length < 8 then ([], b1)
        else
          match indexOfFrom b1 2 0x3C with
          | none => ([], b1)
          | some e =>
            let fe := (if b1.getD (e + 1) 0 == 0x3C then e + 2 else e + 1) + 4
            if b1.length < fe then ([], b1)
            else
              let res := processBufferF f (b1.drop fe)
              (b1.take fe :: res.1, res.2)

/-- The loop with sufficient fuel: every iteration that extracts a frame
removes at least 7 bytes (the frame end is at least `2 + 1 + 4`), so the
buffer length bounds the number of iterations — with fuel equal to the
length, the fuel can only run out on an already-empty buffer, where the
loop would stop anyway. -/
def processBuffer (buf : List Nat) : List (List Nat) × List Nat :=
  processBufferF buf.length buf

/-- One `handleData(chunk)` call: concatenate onto the receive buffer and
run the frame-extraction loop, accumulating extracted frames. -/
def feedStep (acc : List (List Nat) × List Nat) (c : List Nat) :
    List (List Nat) × List Nat :=
  let r := processBuffer (acc.2 ++ c)
  (acc.1 ++ r.1, r.2)

/-- Feeding a sequence of chunks to a fresh reassembler. -/
def feedChunks (chunks : List (List Nat)) : List (List Nat) × List Nat :=
  chunks.foldl feedStep ([], [])

/-- The CoAP dispatches of `handleData`: each extracted slice is decoded,
and the payloads of frames of type `'C'` are handed to
`handleCoapResponse` (decode errors are logged and skipped). -/
def coapDispatches (frames : List (List Nat)) : List (List Nat) :=
  frames.filterMap (fun f =>
    match decodeFrame f with
    | .ok d => if d.type = 0x43 then some d.data else none
    | .error _ => none)

/-- Where a well-formed frame ends according to the reassembler's framing
rule: four checksum characters after the EOF run (one or two bytes)
that starts at the first `0x3C` at index ≥ 2. -/
def framingEnd (F : List Nat) : Option Nat :=
  (indexOfFrom F 2 0x3C).map
    (fun e => (if F.getD (e + 1) 0 == 0x3C then e + 2 else e + 1) + 4)

/-- A byte list that is exactly one complete frame for the reassembler:
at least 8 bytes, starting with SOF, and ending exactly at its framing
end. -/
def IsCompleteFrame (F : List Nat) : Prop :=
  8 ≤ F.length ∧ F.getD 0 0 = 0x3E ∧ framingEnd F = some F.length

instance (F : List Nat) : Decidable (IsCompleteFrame F) := by
  unfold IsCompleteFrame; infer_instance

/-! ## Specification-side formulation of the checksum (for claim C5) -/

/-- The pre-checksum bytes taken as big-endian 16-bit words, an odd
trailing byte as the high byte of a word whose low byte is zero
(the wording of the specification). -/
def specWords : List Nat → List Nat
  | [] => []
  | [b] => [b * 256]
  | b1 :: b2 :: r => (b1 * 256 + b2) :: specWords r

/-- The checksum as the specification words it: sum of the big-endian
words, carries above bit 15 folded back by addition until none remain,
then the bitwise NOT masked to 16 bits. -/
def specChecksum (data : List Nat) : Nat :=
  65535 - foldCarry ((specWords data).sum) % 65536

/-- A byte code that is an uppercase hexadecimal ASCII character. -/
def isUpperHexDigit (b : Nat) : Prop :=
  (48 ≤ b ∧ b ≤ 57) ∨ (65 ≤ b ∧ b ≤ 70)

instance (b : Nat) : Decidable (isUpperHexDigit b) := by
  unfold isUpperHexDigit; infer_instance

/-- Numeric value of one uppercase hex ASCII character. -/
def hexCharVal (b : Nat) : Nat := if b ≤ 57 then b - 48 else b - 55

/-- Numeric value of a four-character hex string. -/
def hexVal4 : List Nat → Nat
  | [a, b, c, d] => hexCharVal a * 4096 + hexCharVal b * 256 + hexCharVal c * 16 + hexCharVal d
  | _ => 0

/-- `(a << 8) | b` is plain positional arithmetic when `b` is a byte. -/
theorem shiftLeft8_lor (a b : Nat) (h : b < 256) : (a <<< 8) ||| b = a * 256 + b := by
  have h8 : b < 2 ^ 8 := h
  rw [Nat.shiftLeft_eq, mul_comm a (2 ^ 8), ← Nat.mul_add_lt_is_or h8 a, mul_comm (2 ^ 8) a]

/-- The summation loop of the source equals the word-list sum of the
specification, for byte-valued input. -/
theorem sumWordsSrc_eq_spec : ∀ data : List Nat, (∀ b ∈ data, b < 256) →
    sumWordsSrc data = (specWords data).sum
  | [], _ => rfl
  | [b], _ => by simp [sumWordsSrc, specWords, Nat.shiftLeft_eq]
  | b1 :: b2 :: r, h => by
    have ih := sumWordsSrc_eq_spec r (fun b hb => h b (by simp [hb]))
    have h2 : b2 < 256 := h b2 (by simp)
    simp [sumWordsSrc, specWords, ih, shiftLeft8_lor b1 b2 h2]

/-- The carry-folding loop terminates below `2^16` and preserves the value
modulo `2^16 - 1` — the defining property of one's-complement summation. -/
theorem foldCarryF_bound_mod : ∀ f s : Nat, s ≤ f →
    foldCarryF f s < 65536 ∧ foldCarryF f s % 65535 = s % 65535 := by
  intro f
  induction f with
  | zero => intro s hs; interval_cases s; simp [foldCarryF]
  | succ f ih =>
    intro s hs
    rw [foldCarryF]
    split
    · omega
    · have hnext : s % 65536 + s / 65536 ≤ f ∧ (s % 65536 + s / 65536) % 65535 = s % 65535 := by
        omega
      obtain ⟨h1, h2⟩ := ih _ hnext.1
      exact ⟨h1, by omega⟩

/-- `foldCarry` lands in `[0, 2^16)` and is the value modulo `2^16 - 1`. -/
theorem foldCarry_bound_mod (s : Nat) :
    foldCarry s < 65536 ∧ foldCarry s % 65535 = s % 65535 :=
  foldCarryF_bound_mod s s le_rfl

/-! ## Claims C1–C3: frame round-trip, escape handling, ping scenario -/

/-- C1 (code bug): the frame round-trip fails on the encoder's own output.
`encodeFrame('P', [])` produces the 7-byte frame
`3E 50 3C 38 35 41 46` (single EOF, checksum over `3E 50 3C`), which
`decodeFrame` rejects with `FrameTooShort` — so decoding the encoding of a
command byte with an empty payload does not return
`(type, payload, checksumValid = true)` and `decode` does fail on an
output of `encode`. -/
theorem mup1_c1_roundtrip_fails_on_empty_payload :
    encodeFrame 0x50 [] = [0x3E, 0x50, 0x3C, 0x38, 0x35, 0x41, 0x46] ∧
    decodeFrame (encodeFrame 0x50 []) = .error .frameTooShort := by
  decide

/-- C2 (code bug): an escaped `0x3C` does terminate the payload.  The frame
`encodeFrame('C', [0x3C]) = 3E 43 5C 3C 3C 32 39 38 30` carries the single
payload byte `0x3C` as the escape pair `5C 3C`, yet `decodeFrame` returns
an empty payload (with `valid = true`), because the payload walk tests
`byte === EOF` before the escaping flag; the claim requires the pair
`5C 3C` to decode to the payload byte `0x3C`. -/
theorem mup1_c2_escaped_eof_terminates_payload :
    encodeFrame 0x43 [0x3C] = [0x3E, 0x43, 0x5C, 0x3C, 0x3C, 0x32, 0x39, 0x38, 0x30] ∧
    decodeFrame (encodeFrame 0x43 [0x3C]) =
      .ok ⟨0x43, [], [0x32, 0x39, 0x38, 0x30], true⟩ ∧
    ([] : List Nat) ≠ [0x3C] := by
  decide

/-- C3 (code bug): the empty ping frame is not `3E 50 3C 3C ⟨hex⟩`.  The
encoder pads a second EOF only when the pre-checksum length is even, so
`encodeFrame('P', [])` emits the single-EOF frame `3E 50 3C` followed by
the checksum of those three bytes (`85AF`), and its own decoder then
rejects the 7-byte result as too short instead of returning
`(type = 'P', payload = [], checksumValid = true)`. -/
theorem mup1_c3_ping_frame_not_double_eof :
    encodeFrame 0x50 [] = [0x3E, 0x50, 0x3C] ++ hex4 (calculateChecksum [0x3E, 0x50, 0x3C]) ∧
    (encodeFrame 0x50 []).take 4 ≠ [0x3E, 0x50, 0x3C, 0x3C] ∧
    decodeFrame (encodeFrame 0x50 []) ≠
      .ok ⟨0x50, [], hex4 (calculateChecksum [0x3E, 0x50, 0x3C, 0x3C]), true⟩ := by
  decide

/-! ## Claim C5: checksum characterisation -/

/-- Uppercase hex digit characters come from digit values below 16. -/
theorem hexDigitChar_upper (x : Nat) (h : x < 16) : isUpperHexDigit (hexDigitChar x) := by
  unfold hexDigitChar isUpperHexDigit
  split <;> omega

/-- `hexCharVal` inverts `hexDigitChar` on digit values. -/
theorem hexCharVal_hexDigitChar (x : Nat) (h : x < 16) : hexCharVal (hexDigitChar x) = x := by
  unfold hexCharVal hexDigitChar
  split_ifs <;> omega

/-- The four hex characters of a 16-bit value decode back to it. -/
theorem hexVal4_hex4 (n : Nat) (h : n < 65536) : hexVal4 (hex4 n) = n := by
  simp only [hex4, hexVal4]
  rw [hexCharVal_hexDigitChar _ (by omega), hexCharVal_hexDigitChar _ (by omega),
      hexCharVal_hexDigitChar _ (by omega), hexCharVal_hexDigitChar _ (by omega)]
  omega

/-- A value already below `2^16` is a fixpoint of the specification's
fold, whatever the fuel. -/
theorem foldCarryF_small (f t : Nat) (h : t < 65536) : foldCarryF f t = t := by
  cases f with
  | zero => rfl
  | succ f =>
    simp only [foldCarryF]
    rw [if_pos (by omega)]

/-- One iteration of the specification's fold. -/
theorem foldCarryF_step (f t : Nat) (h : 65536 ≤ t) :
    foldCarryF (f + 1) t = foldCarryF f (t % 65536 + t / 65536) := by
  simp only [foldCarryF]
  rw [if_neg (by omega)]

/-- A value in `[0, 2^16)` is a fixpoint of the source's fold: its
32-bit wrap is the identity and its shifted-down part is zero. -/
theorem foldCarryJSF_small (f : Nat) (t : Int) (h1 : 0 ≤ t) (h2 : t < 65536) :
    foldCarryJSF f t = t := by
  cases f with
  | zero => rfl
  | succ f =>
    simp only [foldCarryJSF]
    rw [if_pos (by unfold jsShr16 toInt32; omega)]

/-- One iteration of the source's fold on a value where the 32-bit wrap
is still the identity. -/
theorem foldCarryJSF_step (f t : Nat) (h1 : 65536 ≤ t) (h2 : t < 2 ^ 31) :
    foldCarryJSF (f + 1) (t : Int) =
      foldCarryJSF f ((t % 65536 + t / 65536 : Nat) : Int) := by
  have hne : jsShr16 (t : Int) ≠ 0 := by unfold jsShr16 toInt32; omega
  have harg : jsAnd16 (t : Int) + jsShr16 (t : Int) =
      ((t % 65536 + t / 65536 : Nat) : Int) := by
    unfold jsAnd16 jsShr16 toInt32
    push_cast
    omega
  simp only [foldCarryJSF]
  rw [if_neg hne, harg]

/-- Exiting step of the source's carry loop. -/
theorem foldCarryJSF_exit (f : Nat) (s : Int) (h : jsShr16 s = 0) :
    foldCarryJSF (f + 1) s = s := by
  simp only [foldCarryJSF]
  rw [if_pos h]

/-- Iterating step of the source's carry loop. -/
theorem foldCarryJSF_go (f : Nat) (s : Int) (h : jsShr16 s ≠ 0) :
    foldCarryJSF (f + 1) s = foldCarryJSF f (jsAnd16 s + jsShr16 s) := by
  simp only [foldCarryJSF]
  rw [if_neg h]

/-- One loop step lands in `[-32768, 98302]` from any start. -/
theorem jsStep_bounds (s : Int) :
    -32768 ≤ jsAnd16 s + jsShr16 s ∧ jsAnd16 s + jsShr16 s ≤ 98302 := by
  unfold jsAnd16 jsShr16 toInt32
  constructor <;> omega

/-- From `[-32768, 98302]`, a non-exiting step lands in `[0, 2^16)`. -/
theorem jsStep_small (t : Int) (hb1 : -32768 ≤ t) (hb2 : t ≤ 98302)
    (h : jsShr16 t ≠ 0) :
    0 ≤ jsAnd16 t + jsShr16 t ∧ jsAnd16 t + jsShr16 t < 65536 := by
  unfold jsShr16 toInt32 at h
  unfold jsAnd16 jsShr16 toInt32
  constructor <;> omega

/-- Four units of fuel reach the exit of the source's carry loop from any
start: more fuel never changes the value, so `foldCarryJS` is the loop's
true result. -/
theorem foldCarryJSF_fuel (f : Nat) (s : Int) :
    foldCarryJSF (4 + f) s = foldCarryJSF 4 s := by
  by_cases h0 : jsShr16 s = 0
  · rw [show 4 + f = (3 + f) + 1 from by omega, foldCarryJSF_exit _ _ h0,
      show (4 : Nat) = 3 + 1 from by norm_num, foldCarryJSF_exit _ _ h0]
  · rw [show 4 + f = (3 + f) + 1 from by omega, foldCarryJSF_go _ _ h0,
      show (4 : Nat) = 3 + 1 from by norm_num, foldCarryJSF_go _ _ h0]
    by_cases h1 : jsShr16 (jsAnd16 s + jsShr16 s) = 0
    · rw [show 3 + f = (2 + f) + 1 from by omega, foldCarryJSF_exit _ _ h1,
        show (3 : Nat) = 2 + 1 from by norm_num, foldCarryJSF_exit _ _ h1]
    · obtain ⟨c1, c2⟩ :=
        jsStep_small _ (jsStep_bounds s).1 (jsStep_bounds s).2 h1
      rw [show 3 + f = (2 + f) + 1 from by omega, foldCarryJSF_go _ _ h1,
        show (3 : Nat) = 2 + 1 from by norm_num, foldCarryJSF_go _ _ h1,
        foldCarryJSF_small _ _ c1 c2, foldCarryJSF_small _ _ c1 c2]

/-- Below `2^31` the 32-bit coercions are the identity and the source's
fold computes exactly the specification's fold. -/
theorem foldCarryJS_eq_foldCarry (s : Nat) (h : s < 2 ^ 31) :
    foldCarryJS (s : Int) = ((foldCarry s : Nat) : Int) := by
  unfold foldCarryJS foldCarry
  by_cases h1 : s < 65536
  · rw [foldCarryJSF_small 4 _ (by positivity) (by exact_mod_cast h1),
      foldCarryF_small _ _ h1]
  · rw [show (4 : Nat) = 3 + 1 from by norm_num, foldCarryJSF_step 3 s (by omega) h]
    obtain ⟨m, rfl⟩ : ∃ m, s = m + 1 := ⟨s - 1, by omega⟩
    rw [foldCarryF_step m _ (by omega)]
    by_cases h2 : (m + 1) % 65536 + (m + 1) / 65536 < 65536
    · rw [foldCarryJSF_small 3 _ (by positivity) (by exact_mod_cast h2),
        foldCarryF_small _ _ h2]
    · have ht1 : (m + 1) % 65536 + (m + 1) / 65536 < 2 ^ 31 := by omega
      rw [show (3 : Nat) = 2 + 1 from by norm_num, foldCarryJSF_step 2 _ (by omega) ht1]
      obtain ⟨m2, rfl⟩ : ∃ m2, m = m2 + 1 := ⟨m - 1, by omega⟩
      rw [foldCarryF_step m2 _ (by omega)]
      have ht2 : ((m2 + 1 + 1) % 65536 + (m2 + 1 + 1) / 65536) % 65536 +
          ((m2 + 1 + 1) % 65536 + (m2 + 1 + 1) / 65536) / 65536 < 65536 := by
        omega
      rw [foldCarryJSF_small 2 _ (by positivity) (by exact_mod_cast ht2),
        foldCarryF_small _ _ ht2]

/-- `(~v) & 0xFFFF` is `0xFFFF − v` for 16-bit `v`. -/
theorem jsNot16_of_lt (v : Nat) (h : v < 65536) : jsNot16 (v : Int) = 65535 - v := by
  unfold jsNot16 toInt32
  omega

/-- `jsNot16` always lands in `[0, 0xFFFF]`. -/
theorem jsNot16_le (s : Int) : jsNot16 s ≤ 65535 := by
  unfold jsNot16
  omega

/-- Word sum of `2 * n` bytes `0xFF` under the source's summation loop. -/
theorem sumWordsSrc_replicate_ff : ∀ n : Nat,
    sumWordsSrc (List.replicate (2 * n) 0xFF) = n * 65535 := by
  intro n
  induction n with
  | zero => rfl
  | succ n ih =>
    rw [show 2 * (n + 1) = 2 * n + 1 + 1 from by ring, List.replicate_succ,
      List.replicate_succ]
    show ((0xFF <<< 8) ||| 0xFF) + sumWordsSrc (List.replicate (2 * n) 0xFF) = _
    rw [ih, show ((0xFF <<< 8) ||| 0xFF) = 65535 from by decide]
    ring

/-- Word sum of `2 * n` bytes `0xFF` under the specification's words. -/
theorem specWords_replicate_ff : ∀ n : Nat,
    (specWords (List.replicate (2 * n) 0xFF)).sum = n * 65535 := by
  intro n
  induction n with
  | zero => rfl
  | succ n ih =>
    rw [show 2 * (n + 1) = 2 * n + 1 + 1 from by ring, List.replicate_succ,
      List.replicate_succ]
    show (0xFF * 256 + 0xFF) + (specWords (List.replicate (2 * n) 0xFF)).sum = _
    rw [ih]
    ring

/-- `calculateChecksum` through its word sum (stated with the sum
abstracted, so that no reduction ever has to evaluate the input list). -/
theorem calculateChecksum_of_sum (data : List Nat) (n : Nat)
    (h : sumWordsSrc data = n) :
    calculateChecksum data = jsNot16 (foldCarryJS (n : Int)) := by
  unfold calculateChecksum
  rw [h]

/-- `specChecksum` through its word sum (stated with the sum abstracted,
so that no reduction ever has to evaluate the input list). -/
theorem specChecksum_of_sum (data : List Nat) (n : Nat)
    (h : (specWords data).sum = n) :
    specChecksum data = 65535 - foldCarry n % 65536 := by
  unfold specChecksum
  rw [h]

/-- C5 counterexample: on 65 540 bytes `0xFF` — a byte string within the
claim's "every byte string", reachable through `decodeFrame`'s checksum
of everything before the first EOF of a device-supplied buffer — the word
sum is `32770 · 0xFFFF = 2 147 581 950 ≥ 2^31`, JavaScript's `ToInt32`
coercion wraps it, and the code returns 1 where the claimed
one's-complement algorithm yields 0. -/
theorem mup1_c5_counterexample :
    calculateChecksum (List.replicate 65540 0xFF) = 1 ∧
    specChecksum (List.replicate 65540 0xFF) = 0 ∧
    (1 : Nat) ≠ 0 := by
  have hs : sumWordsSrc (List.replicate 65540 0xFF) = 2147581950 := by
    rw [show (65540 : Nat) = 2 * 32770 from by norm_num, sumWordsSrc_replicate_ff]
  have hw : (specWords (List.replicate 65540 0xFF)).sum = 2147581950 := by
    rw [show (65540 : Nat) = 2 * 32770 from by norm_num, specWords_replicate_ff]
  have h1 : foldCarry 2147581950 = 65535 := by
    unfold foldCarry
    rw [show (2147581950 : Nat) = 2147581949 + 1 from by norm_num,
      foldCarryF_step 2147581949 _ (by norm_num),
      show (2147581949 + 1) % 65536 + (2147581949 + 1) / 65536 = 65535 from by norm_num,
      foldCarryF_small _ _ (by norm_num)]
  refine ⟨?_, ?_, by decide⟩
  · rw [calculateChecksum_of_sum _ _ hs]
    decide
  · rw [specChecksum_of_sum _ _ hw, h1]

/-- C5 (corrected): `calculateChecksum` computes the specification's
one's-complement checksum for every byte string whose big-endian word sum
stays below `2^31`, where JavaScript's 32-bit coercions in `>>`, `&` and
`~` are the identity — the byte-pair summation loop equals the sum of the
big-endian 16-bit words (odd trailing byte as high byte), the carry fold
(whose fueled model provably computes the loop's limit) keeps the value
below `2^16` while preserving it modulo `2^16 - 1`, and the final value
is the bitwise NOT masked to 16 bits; the encoder appends it as exactly
four uppercase-hexadecimal ASCII characters (zero-padded) whose value is
the checksum itself.  Beyond `2^31` the `ToInt32` wrap makes the code
diverge from the one's-complement value (see the counterexample). -/
theorem mup1_c5_checksum :
    (∀ data : List Nat, (∀ b ∈ data, b < 256) → sumWordsSrc data < 2 ^ 31 →
      calculateChecksum data = specChecksum data) ∧
    (∀ (f : Nat) (s : Int), foldCarryJSF (4 + f) s = foldCarryJSF 4 s) ∧
    (∀ s : Nat, foldCarry s < 65536 ∧ foldCarry s % 65535 = s % 65535) ∧
    (∀ data : List Nat, calculateChecksum data ≤ 65535) ∧
    (∀ type payload : List Nat, ∀ t ∈ type, encodeFrame t payload =
      preFrame t payload ++ hex4 (calculateChecksum (preFrame t payload))) ∧
    (∀ data : List Nat, (hex4 (calculateChecksum data)).length = 4 ∧
      (∀ b ∈ hex4 (calculateChecksum data), isUpperHexDigit b) ∧
      hexVal4 (hex4 (calculateChecksum data)) = calculateChecksum data) := by
  refine ⟨?_, foldCarryJSF_fuel, foldCarry_bound_mod, fun data => jsNot16_le _, ?_, ?_⟩
  · intro data hb hlt
    unfold calculateChecksum specChecksum
    rw [← sumWordsSrc_eq_spec data hb, foldCarryJS_eq_foldCarry _ hlt,
      jsNot16_of_lt _ (foldCarry_bound_mod _).1]
    have := (foldCarry_bound_mod (sumWordsSrc data)).1
    omega
  · intro _ _ _ _
    rfl
  · intro data
    refine ⟨rfl, ?_, ?_⟩
    · intro b hb
      simp only [hex4, List.mem_cons, List.not_mem_nil, or_false] at hb
      rcases hb with h | h | h | h <;> rw [h] <;> exact hexDigitChar_upper _ (by omega)
    · have hlt : calculateChecksum data < 65536 := by
        have := jsNot16_le (foldCarryJS (sumWordsSrc data : Int))
        unfold calculateChecksum
        omega
      exact hexVal4_hex4 _ hlt

/-- Witness for C5 at the pre-checksum bytes of the ping frame. -/
theorem mup1_c5_witness :
    ((∀ b ∈ [0x3E, 0x50, 0x3C], (b : Nat) < 256) ∧
      sumWordsSrc [0x3E, 0x50, 0x3C] < 2 ^ 31) ∧
    calculateChecksum [0x3E, 0x50, 0x3C] = specChecksum [0x3E, 0x50, 0x3C] :=
  ⟨⟨by decide, by decide⟩, mup1_c5_checksum.1 [0x3E, 0x50, 0x3C] (by decide) (by decide)⟩

/-! ## Claims C7 and C10: message-ID generation -/

/-- C7 counterexample: with the counter at 5 and a request with
message-ID 5 still pending, `request()` assigns message-ID 5 anyway — the
assigned ID collides with the pending set instead of being skipped
forward, because the acquisition never consults the pending map. -/
theorem coap_c7_counterexample :
    acquireMid [5] 5 = (5, 6) ∧ (acquireMid [5] 5).1 ∈ [5] := by decide

/-- Unfolding `midAt` at the first step instead of the last. -/
theorem midAt_succ_shift (m0 n : Nat) : midAt m0 (n + 1) = midAt (wrapMid m0) n := by
  induction n with
  | zero => rfl
  | succ n ih => rw [midAt, ih, midAt]

/-- Closed form of the message-ID sequence for initial values in
`[1, 0xFFFF]`: it cycles through `1..0xFFFF` with period `0xFFFF`. -/
theorem midAt_closed (m0 : Nat) (h1 : 1 ≤ m0) (h2 : m0 ≤ 65535) (n : Nat) :
    midAt m0 n = (m0 - 1 + n) % 65535 + 1 := by
  induction n with
  | zero => simp only [midAt]; omega
  | succ n ih =>
    rw [midAt, ih]
    unfold wrapMid
    split <;> omega

/-- C7 (corrected): message-ID acquisition ignores the pending map — the
assigned ID is simply the counter, which increments and wraps from
`0xFFFF` back to 1 (skipping 0) — and, with the counter initialised to
any value up to `0xFFFF`, any window of at most `0xFFFF` sequential
requests receives pairwise-distinct message-IDs. -/
theorem coap_c7_mid_assignment :
    (∀ pending : List Nat, ∀ counter : Nat,
      acquireMid pending counter = (counter, wrapMid counter)) ∧
    (∀ m0, m0 ≤ 65535 → ∀ i j, i < 65535 → j < 65535 → i ≠ j →
      midAt m0 i ≠ midAt m0 j) := by
  refine ⟨fun _ _ => rfl, ?_⟩
  intro m0 hm i j hi hj hne
  by_cases h0 : m0 = 0
  · subst h0
    have key : ∀ k, midAt 0 (k + 1) = k % 65535 + 1 := by
      intro k
      rw [midAt_succ_shift]
      have hw : wrapMid 0 = 1 := by norm_num [wrapMid]
      rw [hw, midAt_closed 1 (by omega) (by omega)]
      omega
    match i, j with
    | 0, 0 => exact absurd rfl hne
    | 0, b + 1 => rw [key]; simp only [midAt]; omega
    | a + 1, 0 => rw [key]; simp only [midAt]; omega
    | a + 1, b + 1 =>
      rw [key, key]
      intro heq
      exact hne (by omega)
  · rw [midAt_closed m0 (by omega) hm, midAt_closed m0 (by omega) hm]
    intro heq
    exact hne (by omega)

/-- Witness for C7: starting at counter 5, requests 0 and 1 get the
distinct message-IDs 5 and 6. -/
theorem coap_c7_witness :
    ((5 : Nat) ≤ 65535 ∧ (0 : Nat) < 65535 ∧ (1 : Nat) < 65535 ∧ (0 : Nat) ≠ 1) ∧
    midAt 5 0 ≠ midAt 5 1 :=
  ⟨by decide, coap_c7_mid_assignment.2 5 (by decide) 0 1 (by decide) (by decide) (by decide)⟩

/-- C10 (confirmed): the first request reads the initial counter directly
(so initialisation 0, which `Math.floor(Math.random() * 0xFFFF)` can
produce, sends message-ID 0), and every later request has a nonzero
message-ID because the wrap restarts at 1 — message-ID 0 can only be the
very first one. -/
theorem coap_c10_mid_zero_only_first :
    (∀ m0, m0 ≤ 0xFFFE → midAt m0 0 = m0) ∧
    midAt 0 0 = 0 ∧
    (∀ m0 n, 1 ≤ n → midAt m0 n ≠ 0) := by
  refine ⟨fun m0 _ => rfl, rfl, ?_⟩
  intro m0 n hn
  obtain ⟨k, rfl⟩ : ∃ k, n = k + 1 := ⟨n - 1, by omega⟩
  rw [midAt]
  unfold wrapMid
  split <;> omega

/-- Witness for C10 at initialisation 0 and request index 1. -/
theorem coap_c10_witness :
    ((0 : Nat) ≤ 0xFFFE ∧ (1 : Nat) ≤ 1) ∧ midAt 0 0 = 0 ∧ midAt 0 1 ≠ 0 :=
  ⟨by decide, coap_c10_mid_zero_only_first.1 0 (by decide),
   coap_c10_mid_zero_only_first.2.2 0 1 (by decide)⟩

/-! ## Claim C8: response dispatch -/

/-- Deleting a key from the pending map removes it. -/
theorem lookup_filter_self {ε : Type} (l : List (Nat × ε)) (k : Nat) :
    (l.filter (fun p => p.1 != k)).lookup k = none := by
  induction l with
  | nil => rfl
  | cons p l ih =>
    obtain ⟨a, b⟩ := p
    by_cases h : a = k
    · subst h
      simpa [List.filter_cons] using ih
    · have hba : (a != k) = true := bne_iff_ne.mpr h
      have hka : (k == a) = false := beq_eq_false_iff_ne.mpr (Ne.symm h)
      simp [List.filter_cons, hba, List.lookup, hka, ih]

/-- Deleting a key from the pending map leaves every other key unchanged. -/
theorem lookup_filter_other {ε : Type} (l : List (Nat × ε)) (k m : Nat) (h : m ≠ k) :
    (l.filter (fun p => p.1 != k)).lookup m = l.lookup m := by
  induction l with
  | nil => rfl
  | cons p l ih =>
    obtain ⟨a, b⟩ := p
    by_cases ha : a = k
    · subst ha
      have hma : (m == a) = false := beq_eq_false_iff_ne.mpr h
      simp [List.filter_cons, List.lookup, hma, ih]
    · have hba : (a != k) = true := bne_iff_ne.mpr ha
      by_cases hm : m = a
      · subst hm
        simp [List.filter_cons, hba, List.lookup]
      · have hma : (m == a) = false := beq_eq_false_iff_ne.mpr hm
        simp [List.filter_cons, hba, List.lookup, hma, ih]

/-- C8 (confirmed): a parsed response whose message-ID is absent from the
pending map is logged and dropped with the map untouched; a present ID has
its entry (timer included) removed and settled — resolved with the payload
when the code class is 2, rejected with the code, code name and payload
otherwise — while the entries of all other message-IDs are untouched, so a
response with message-ID M settles exactly the request that sent M. -/
theorem coap_c8_response_settles {α ε : Type} (dec : List Nat → Option α)
    (pending : List (Nat × ε)) (data : List Nat) (r : CoapResp α)
    (hr : parseResponse dec data = .ok r) :
    (pending.lookup r.messageId = none →
      handleCoapResponse dec pending data = (pending, .unknownMid r.messageId)) ∧
    (∀ ent, pending.lookup r.messageId = some ent →
      handleCoapResponse dec pending data =
        (pending.filter (fun p => p.1 != r.messageId),
         if r.codeClass = 2 then CoapEvent.resolved r.messageId ent r.payload
         else CoapEvent.rejected r.messageId ent r.code r.codeName r.payload) ∧
      (pending.filter (fun p => p.1 != r.messageId)).lookup r.messageId = none ∧
      (∀ m, m ≠ r.messageId →
        (pending.filter (fun p => p.1 != r.messageId)).lookup m = pending.lookup m)) := by
  constructor
  · intro h
    simp only [handleCoapResponse, hr, h]
  · intro ent h
    refine ⟨?_, lookup_filter_self _ _, fun m hm => lookup_filter_other _ _ _ hm⟩
    simp only [handleCoapResponse, hr, h]
    split <;> rfl

/-- Witness for C8: an ACK with code 2.05 and message-ID `0x1234` resolves
the single pending entry under `0x1234`. -/
theorem coap_c8_witness :
    parseResponse (α := Unit) (fun _ => none) [0x60, 0x45, 0x12, 0x34] =
      Except.ok ⟨1, 2, 69, 0x1234, none, 2, ("2.05 Content")⟩ ∧
    [((0x1234 : Nat), (7 : Nat))].lookup (0x1234 : Nat) = some 7 ∧
    handleCoapResponse (α := Unit) (fun _ => none) [((0x1234 : Nat), (7 : Nat))]
        [0x60, 0x45, 0x12, 0x34] =
      ([], CoapEvent.resolved 0x1234 7 none) := by
  have h := coap_c8_response_settles (α := Unit) (ε := Nat) (fun _ => none)
    [(0x1234, 7)] [0x60, 0x45, 0x12, 0x34]
    ⟨1, 2, 69, 0x1234, none, 2, ("2.05 Content")⟩ (by decide)
  refine ⟨by decide, by decide, ?_⟩
  rw [(h.2 7 (by decide)).1]
  decide

/-! ## Claim C9: code class and code name -/

set_option maxRecDepth 4000 in
/-- Every code name starts with the `C.DD` string formed from the code's
class and detail (checked for all byte values: table entries carry the
matching prefix, all other codes are exactly the formatted string). -/
theorem fmtCD_starts_codeName : ∀ c : Nat, c < 256 →
    (fmtCD c).data.isPrefixOf ((RESPONSE_CODES c).getD (fmtCD c)).data = true := by
  decide

/-- C9 (corrected): for every parsed response, `codeClass = code >>> 5`,
and `codeName` is the full registry string `"C.DD Name"` when the code is
in the `RESPONSE_CODES` table (e.g. 69 → `"2.05 Content"`) and exactly
the computed `"C.DD"` string otherwise; in both cases it begins with the
`C.DD` prefix formed from the code's class and detail. -/
theorem coap_c9_code_class_and_name {α : Type} (dec : List Nat → Option α)
    (data : List Nat) (r : CoapResp α) (hb : ∀ b ∈ data, b < 256)
    (hr : parseResponse dec data = .ok r) :
    r.codeClass = r.code >>> 5 ∧
    r.code < 256 ∧
    r.codeName = (RESPONSE_CODES r.code).getD (fmtCD r.code) ∧
    (fmtCD r.code).data.isPrefixOf r.codeName.data = true ∧
    (RESPONSE_CODES r.code = none → r.codeName = fmtCD r.code) := by
  rcases data with _ | ⟨a, _ | ⟨b, _ | ⟨c, _ | ⟨d, rest⟩⟩⟩⟩
  · simp [parseResponse] at hr
  · simp [parseResponse] at hr
  · simp [parseResponse] at hr
  · simp [parseResponse] at hr
  · simp only [parseResponse, List.length_cons, List.length_nil,
      List.getD_cons_zero, List.getD_cons_succ] at hr
    rw [if_neg (by omega), Except.ok.injEq] at hr
    subst hr
    have hcode : b < 256 := hb b (by simp)
    refine ⟨?_, hcode, rfl, ?_, ?_⟩
    · show b / 32 = b >>> 5
      rw [Nat.shiftRight_eq_div_pow]
    · exact fmtCD_starts_codeName b hcode
    · intro h
      have h' : RESPONSE_CODES b = none := h
      show (RESPONSE_CODES b).getD (fmtCD b) = fmtCD b
      rw [h']
      rfl

/-- C9 counterexample: code 69 parses to the code name `"2.05 Content"`,
not the bare `"2.05"` the claim gives as its example. -/
theorem coap_c9_counterexample :
    (parseResponse (α := Unit) (fun _ => none) [0x60, 0x45, 0x12, 0x34]).map
      (fun r => r.codeName) = Except.ok ("2.05 Content") ∧
    ("2.05 Content" : String) ≠ ("2.05") := by decide

/-- Witness for C9 on the concrete 2.05 response. -/
theorem coap_c9_witness :
    (∀ x ∈ [0x60, 0x45, 0x12, 0x34], (x : Nat) < 256) ∧
    (⟨1, 2, 69, 0x1234, none, 2, ("2.05 Content")⟩ : CoapResp Unit).codeClass = 69 >>> 5 :=
  ⟨by decide,
   (coap_c9_code_class_and_name (fun _ => none) [0x60, 0x45, 0x12, 0x34]
     ⟨1, 2, 69, 0x1234, none, 2, ("2.05 Content")⟩ (by decide) (by decide)).1⟩

/-! ## Claim C4: reassembly under arbitrary chunking -/

/-- The reassembler does nothing on an empty buffer, whatever the fuel. -/
theorem processBufferF_nil (f : Nat) : processBufferF f [] = ([], []) := by
  cases f <;> rfl

/-- The reassembler does nothing on an empty buffer. -/
theorem processBuffer_nil : processBuffer [] = ([], []) := rfl

/-- A first occurrence below the cut survives taking a prefix. -/
theorem findIdxFrom_take_some (v : Nat) : ∀ (l : List Nat) (n i : Nat),
    findIdxFrom v l = some i → i < n → findIdxFrom v (l.take n) = some i := by
  intro l
  induction l with
  | nil => intro n i h _; simp [findIdxFrom] at h
  | cons b r ih =>
    intro n i h hn
    match n with
    | 0 => omega
    | n + 1 =>
      rw [List.take_succ_cons]
      by_cases hb : b = v
      · simp [findIdxFrom, hb] at h ⊢
        omega
      · simp only [findIdxFrom, hb, if_false, Option.map_eq_some'] at h ⊢
        obtain ⟨j, hj, hji⟩ := h
        exact ⟨j, ih n j hj (by omega), hji⟩

/-- A first occurrence at or beyond the cut disappears from the prefix. -/
theorem findIdxFrom_take_none_of_ge (v : Nat) : ∀ (l : List Nat) (n i : Nat),
    findIdxFrom v l = some i → n ≤ i → findIdxFrom v (l.take n) = none := by
  intro l
  induction l with
  | nil => intro n i h _; simp [findIdxFrom] at h
  | cons b r ih =>
    intro n i h hn
    match n with
    | 0 => rfl
    | n + 1 =>
      rw [List.take_succ_cons]
      by_cases hb : b = v
      · simp [findIdxFrom, hb] at h
        omega
      · simp only [findIdxFrom, hb, if_false, Option.map_eq_some'] at h
        obtain ⟨j, hj, hji⟩ := h
        simp only [findIdxFrom, hb, if_false, Option.map_eq_none']
        exact ih n j hj (by omega)

/-- `getD` agrees on a prefix below the cut. -/
theorem getD_take_of_lt : ∀ (l : List Nat) (n i : Nat), i < n →
    (l.take n).getD i 0 = l.getD i 0 := by
  intro l
  induction l with
  | nil => intro n i _; simp
  | cons b r ih =>
    intro n i h
    match n with
    | 0 => omega
    | n + 1 =>
      rw [List.take_succ_cons]
      match i with
      | 0 => simp
      | i + 1 =>
        simp only [List.getD_cons_succ]
        exact ih n i (by omega)

/-- Feeding a complete frame to the reassembler in one piece extracts
exactly that frame and leaves the buffer empty. -/
theorem processBuffer_complete (F : List Nat) (hF : IsCompleteFrame F) :
    processBuffer F = ([F], []) := by
  obtain ⟨hlen, hhead, hframe⟩ := hF
  obtain ⟨e, he, hfe⟩ := Option.map_eq_some'.mp hframe
  rcases F with _ | ⟨f0, F'⟩
  · simp at hlen
  · have hf0 : f0 = 0x3E := by simpa using hhead
    subst hf0
    unfold processBuffer
    rw [List.length_cons]
    simp only [processBufferF]
    rw [if_neg (by simp)]
    have hsi : findIdxFrom 0x3E (0x3E :: F') = some 0 := by simp [findIdxFrom]
    simp only [hsi, List.drop_zero]
    rw [if_neg (by omega)]
    simp only [he]
    simp only [hfe]
    rw [if_neg (by omega)]
    simp only [List.take_length, List.drop_length, processBufferF_nil]

/-- Feeding any proper prefix of a complete frame leaves the reassembler
waiting with the prefix intact: every boundary decision it could commit to
needs bytes beyond the prefix. -/
theorem processBuffer_prefix (F : List Nat) (hF : IsCompleteFrame F) (k : Nat)
    (hk : k < F.length) : processBuffer (F.take k) = ([], F.take k) := by
  obtain ⟨hlen, hhead, hframe⟩ := hF
  obtain ⟨e, he, hfe⟩ := Option.map_eq_some'.mp hframe
  obtain ⟨j, hj, hje⟩ := Option.map_eq_some'.mp he
  have he2 : 2 ≤ e := by omega
  rcases Nat.eq_zero_or_pos k with rfl | hkpos
  · rw [List.take_zero]
    exact processBuffer_nil
  · rcases F with _ | ⟨f0, F'⟩
    · simp at hlen
    have hf0 : f0 = 0x3E := by simpa using hhead
    subst hf0
    obtain ⟨k', rfl⟩ : ∃ k', k = k' + 1 := ⟨k - 1, by omega⟩
    rw [List.take_succ_cons]
    have hklen : k' < F'.length := by
      simp only [List.length_cons] at hk
      omega
    have hlenP : (0x3E :: List.take k' F').length = k' + 1 := by
      simp [List.length_take]
      omega
    unfold processBuffer
    rw [hlenP]
    simp only [processBufferF]
    rw [if_neg (by simp)]
    have hsi : findIdxFrom 0x3E (0x3E :: List.take k' F') = some 0 := by simp [findIdxFrom]
    simp only [hsi, List.drop_zero]
    by_cases h8 : (0x3E :: List.take k' F').length < 8
    · rw [if_pos h8]
    · rw [if_neg h8]
      have hk2 : 2 ≤ k' := by
        rw [hlenP] at h8
        omega
      have hj' : findIdxFrom 0x3C (F'.drop 1) = some j := by
        simpa [List.drop_succ_cons] using hj
      have hdrop2 : (0x3E :: List.take k' F').drop 2 = (F'.drop 1).take (k' - 1) := by
        rw [List.drop_succ_cons, List.drop_take]
      by_cases hek : e < k' + 1
      · have hjk : j < k' - 1 := by omega
        have hfp := findIdxFrom_take_some 0x3C (F'.drop 1) (k' - 1) j hj' hjk
        have he' : indexOfFrom (0x3E :: List.take k' F') 2 0x3C = some e := by
          unfold indexOfFrom
          rw [hdrop2, hfp]
          simp [hje]
        simp only [he']
        by_cases hck : e + 1 < k' + 1
        · have hgd : (0x3E :: List.take k' F').getD (e + 1) 0 =
              (0x3E :: F').getD (e + 1) 0 := by
            rw [show (0x3E :: List.take k' F') = (0x3E :: F').take (k' + 1) from by
              rw [List.take_succ_cons]]
            exact getD_take_of_lt _ _ _ hck
          simp only [hgd, hfe]
          rw [if_pos (by rw [hlenP]; omega)]
        · have hgd : (0x3E :: List.take k' F').getD (e + 1) 0 = 0 := by
            apply List.getD_eq_default
            rw [hlenP]
            omega
          simp only [hgd, show ((0 : Nat) == 0x3C) = false from rfl,
            Bool.false_eq_true, if_false]
          rw [if_pos (by rw [hlenP]; omega)]
      · have hfp := findIdxFrom_take_none_of_ge 0x3C (F'.drop 1) (k' - 1) j hj' (by omega)
        have he' : indexOfFrom (0x3E :: List.take k' F') 2 0x3C = none := by
          unfold indexOfFrom
          rw [hdrop2, hfp]
          rfl
        simp only [he']

/-- Chunks that are all empty leave the reassembler state unchanged once
the buffer is empty. -/
theorem foldl_feedStep_empty : ∀ (cs : List (List Nat)),
    (∀ c ∈ cs, c = []) → ∀ out : List (List Nat),
    cs.foldl feedStep (out, []) = (out, []) := by
  intro cs
  induction cs with
  | nil => intro _ out; rfl
  | cons c cs ih =>
    intro h out
    have hc : c = [] := h c (by simp)
    subst hc
    rw [List.foldl_cons]
    have hstep : feedStep (out, []) [] = (out, []) := by
      simp [feedStep, processBuffer_nil]
    rw [hstep]
    exact ih (fun x hx => h x (by simp [hx])) out

/-- Driving the fold: from any proper prefix of a complete frame already
in the buffer, feeding the remaining chunks produces exactly the frame
and an empty buffer. -/
theorem feed_go (F : List Nat) (hF : IsCompleteFrame F) :
    ∀ (cs : List (List Nat)) (k : Nat) (out : List (List Nat)),
      k < F.length → F.take k ++ cs.flatten = F →
      cs.foldl feedStep (out, F.take k) = (out ++ [F], []) := by
  intro cs
  induction cs with
  | nil =>
    intro k out hk hj
    exfalso
    have := congrArg List.length hj
    simp [List.length_take] at this
    omega
  | cons c cs ih =>
    intro k out hk hj
    rw [List.foldl_cons]
    have hklen : (F.take k).length = k := by
      rw [List.length_take]
      omega
    have hjoin : (F.take k ++ c) ++ cs.flatten = F := by
      simpa [List.append_assoc] using hj
    have hk' : k + c.length ≤ F.length := by
      have := congrArg List.length hjoin
      simp [List.length_append, hklen] at this
      omega
    have hpre : F.take (k + c.length) = F.take k ++ c := by
      conv_lhs => rw [← hjoin]
      exact List.take_left' (by simp [hklen])
    have hstep : feedStep (out, F.take k) c =
        (out ++ (processBuffer (F.take k ++ c)).1, (processBuffer (F.take k ++ c)).2) := rfl
    rw [hstep]
    rcases Nat.lt_or_ge (k + c.length) F.length with hlt | hge
    · rw [← hpre, processBuffer_prefix F hF (k + c.length) hlt]
      simp only [List.append_nil]
      apply ih (k + c.length) out hlt
      rw [hpre]
      exact hjoin
    · have heq : k + c.length = F.length := le_antisymm hk' hge
      have hFeq : F.take k ++ c = F := by
        rw [← hpre, heq, List.take_length]
      rw [hFeq, processBuffer_complete F hF]
      have hflat : cs.flatten = [] := by
        rw [hFeq] at hjoin
        have hlen2 := congrArg List.length hjoin
        rw [List.length_append] at hlen2
        exact List.eq_nil_of_length_eq_zero (by omega)
      exact foldl_feedStep_empty cs (List.flatten_eq_nil_iff.mp hflat) (out ++ [F])

/-- C4 counterexample: a valid MUP1 frame need not yield exactly one
dispatched CoAP parse.  The properly escaped, checksummed frame
`encodeFrame('C', [3C AA BB CC DD 3E 43 01 02 03])` carries its first
payload byte `0x3C` as the escape pair `5C 3C`; the reassembler's framing
rule takes that raw `0x3C` as the frame's EOF, slices an 8-byte bogus
frame there, resynchronises on the raw `0x3E` of the escaped payload byte
`0x3E`, and slices the tail as a second frame — so feeding this one valid
frame dispatches two CoAP parses, not one. -/
theorem coap_c4_counterexample :
    encodeFrame 0x43 [0x3C, 0xAA, 0xBB, 0xCC, 0xDD, 0x3E, 0x43, 0x01, 0x02, 0x03] =
      [0x3E, 0x43, 0x5C, 0x3C, 0xAA, 0xBB, 0xCC, 0xDD, 0x5C, 0x3E, 0x43,
       0x01, 0x02, 0x03, 0x3C, 0x31, 0x30, 0x41, 0x34] ∧
    feedChunks [[0x3E, 0x43, 0x5C, 0x3C, 0xAA, 0xBB, 0xCC, 0xDD, 0x5C, 0x3E, 0x43,
        0x01, 0x02, 0x03, 0x3C, 0x31, 0x30, 0x41, 0x34]] =
      ([[0x3E, 0x43, 0x5C, 0x3C, 0xAA, 0xBB, 0xCC, 0xDD],
        [0x3E, 0x43, 0x01, 0x02, 0x03, 0x3C, 0x31, 0x30, 0x41, 0x34]], []) ∧
    (coapDispatches (feedChunks [[0x3E, 0x43, 0x5C, 0x3C, 0xAA, 0xBB, 0xCC, 0xDD,
        0x5C, 0x3E, 0x43, 0x01, 0x02, 0x03, 0x3C, 0x31, 0x30, 0x41, 0x34]]).1).length = 2 ∧
    (2 : Nat) ≠ 1 := by
  decide

/-- C4 (corrected): reassembly is chunking-invariant for every frame that
the reassembler's framing rule delimits exactly — at least 8 bytes,
starting with SOF, with the four checksum characters after the EOF run
that starts at the first `0x3C` at index ≥ 2 ending exactly at the
frame's end (equivalently: no raw `0x3C` earlier, which excludes frames
whose payload carries an escaped `0x3C`).  For every such frame, feeding
its bytes to `handleData` in any split whatsoever — byte-by-byte, chunks
of (1, 7, 20, remaining), or any other — produces exactly the one
extracted frame with an empty buffer left, identical to feeding the whole
frame in a single chunk; consequently the decoded frames coincide, and
when the frame decodes as a CoAP frame there is exactly one dispatched
CoAP parse carrying the same bytes.  For valid frames outside this set
the property fails (see the counterexample): the reassembler mis-slices
at the escaped `0x3C` and can dispatch two CoAP parses. -/
theorem coap_c4_reassembly (F : List Nat) (chunks : List (List Nat))
    (hF : IsCompleteFrame F) (hj : chunks.flatten = F) :
    feedChunks chunks = ([F], []) ∧
    feedChunks chunks = feedChunks [F] ∧
    coapDispatches (feedChunks chunks).1 = coapDispatches (feedChunks [F]).1 ∧
    (∀ d, decodeFrame F = .ok d → d.type = 0x43 →
      coapDispatches (feedChunks chunks).1 = [d.data]) := by
  have hlen : 0 < F.length := by
    obtain ⟨h8, _, _⟩ := hF
    omega
  have h1 : feedChunks chunks = ([F], []) := by
    unfold feedChunks
    have h := feed_go F hF chunks 0 [] hlen (by simpa using hj)
    simpa using h
  have h2 : feedChunks [F] = ([F], []) := by
    unfold feedChunks
    have h := feed_go F hF [F] 0 [] hlen (by simp)
    simpa using h
  refine ⟨h1, by rw [h1, h2], by rw [h1, h2], ?_⟩
  intro d hd ht
  rw [h1]
  simp [coapDispatches, hd, ht]

/-- Witness for C4: the CoAP frame `3E 43 01 3C 3C 38 34 38 30`
(`encodeFrame('C', [1])`) fed in chunks of sizes (1, 3, 2, 3). -/
theorem coap_c4_witness :
    IsCompleteFrame [0x3E, 0x43, 0x01, 0x3C, 0x3C, 0x38, 0x34, 0x38, 0x30] ∧
    ([[0x3E], [0x43, 0x01, 0x3C], [0x3C, 0x38], [0x34, 0x38, 0x30]] :
      List (List Nat)).flatten =
      [0x3E, 0x43, 0x01, 0x3C, 0x3C, 0x38, 0x34, 0x38, 0x30] ∧
    feedChunks [[0x3E], [0x43, 0x01, 0x3C], [0x3C, 0x38], [0x34, 0x38, 0x30]] =
      ([[0x3E, 0x43, 0x01, 0x3C, 0x3C, 0x38, 0x34, 0x38, 0x30]], []) :=
  ⟨by decide, by decide,
   (coap_c4_reassembly _ _ (by decide) (by decide)).1⟩

/-! ## Claim C6: CoAP message building -/

/-- Reading an empty option stream yields nothing, whatever the fuel. -/
theorem parseOptsF_nil (f prev : Nat) : parseOptsF f prev [] = [] := by
  cases f <;> rfl

/-- Reading back one encoded option header: a base-form delta (below 13)
and any representable length (at most `269 + 0xFFFF`) yield the absolute
option number and exactly the declared value bytes. -/
theorem parseOptsF_step (f prev d l : Nat) (v rest : List Nat)
    (hd : d < 13) (hl : l ≤ 65804) (hv : v.length = l) :
    parseOptsF (f + 1) prev (encodeOptionHeader d l ++ v ++ rest) =
      (prev + d, v) :: parseOptsF f (prev + d) rest := by
  have hd13 : d ≠ 13 := by omega
  have hd14 : d ≠ 14 := by omega
  rcases Nat.lt_or_ge l 13 with hl13 | hl13
  · have hH : encodeOptionHeader d l = [d * 16 + l] := by
      simp [encodeOptionHeader, hd, hl13]
    have e1 : (d * 16 + l) / 16 = d := by omega
    have e2 : (d * 16 + l) % 16 = l := by omega
    have hl13' : l ≠ 13 := by omega
    have hl14' : l ≠ 14 := by omega
    rw [hH]
    simp [parseOptsF, e1, e2, hd13, hd14, hl13', hl14',
      List.take_left' hv, List.drop_left' hv]
  · rcases Nat.lt_or_ge l 269 with hl269 | hl269
    · have hH : encodeOptionHeader d l = [d * 16 + 13, l - 13] := by
        have h1 : ¬ l < 13 := by omega
        simp [encodeOptionHeader, hd, h1, hl269]
      have e1 : (d * 16 + 13) / 16 = d := by omega
      have e2 : (d * 16 + 13) % 16 = 13 := by omega
      have e3 : l - 13 + 13 = l := by omega
      rw [hH]
      simp [parseOptsF, e1, e2, hd13, hd14, e3,
        List.take_left' hv, List.drop_left' hv]
    · have hH : encodeOptionHeader d l =
          [d * 16 + 14, (l - 269) / 256 % 256, (l - 269) % 256] := by
        have h1 : ¬ l < 13 := by omega
        have h2 : ¬ l < 269 := by omega
        simp [encodeOptionHeader, hd, h1, h2]
      have e1 : (d * 16 + 14) / 16 = d := by omega
      have e2 : (d * 16 + 14) % 16 = 14 := by omega
      have e3 : (l - 269) / 256 % 256 * 256 + (l - 269) % 256 + 269 = l := by omega
      rw [hH]
      simp [parseOptsF, e1, e2, hd13, hd14, e3,
        List.take_left' hv, List.drop_left' hv]

/-- Reading back a whole item loop: `emitItems` parses to one option per
item, each with the absolute number `optNum`, leaving the rest of the
stream to be read with previous number `optNum` (or `prev` when there
were no items). -/
theorem parseOptsF_emit (optNum : Nat) (items : List (List Nat)) :
    ∀ (f prev : Nat) (rest : List Nat),
      prev ≤ optNum → optNum - prev < 13 → (∀ s ∈ items, s.length ≤ 65804) →
      parseOptsF (items.length + f) prev (emitItems optNum items prev ++ rest) =
        items.map (fun s => (optNum, s)) ++
          parseOptsF f (if items.isEmpty then prev else optNum) rest := by
  induction items with
  | nil =>
    intro f prev rest _ _ _
    simp [emitItems]
  | cons s its ih =>
    intro f prev rest h1 h2 h3
    have hlen : s.length ≤ 65804 := h3 s (by simp)
    have hfuel : (s :: its).length + f = (its.length + f) + 1 := by
      simp [List.length_cons]
      omega
    have hemit : emitItems optNum (s :: its) prev ++ rest =
        encodeOptionHeader (optNum - prev) s.length ++ s ++
          (emitItems optNum its optNum ++ rest) := by
      simp [emitItems, List.append_assoc]
    rw [hfuel, hemit, parseOptsF_step _ prev _ _ s _ h2 hlen rfl]
    have hpo : prev + (optNum - prev) = optNum := by omega
    rw [hpo, ih f optNum rest le_rfl (by omega) (fun x hx => h3 x (by simp [hx]))]
    simp [ite_self]

/-- Each item contributes at least one byte to the option stream. -/
theorem emitItems_length_le (optNum : Nat) :
    ∀ (items : List (List Nat)) (prev : Nat),
      items.length ≤ (emitItems optNum items prev).length := by
  intro items
  induction items with
  | nil => intro prev; simp [emitItems]
  | cons s its ih =>
    intro prev
    have h1 := ih optNum
    have h2 : 1 ≤ (encodeOptionHeader (optNum - prev) s.length).length := by
      simp [encodeOptionHeader]
    simp only [emitItems, List.length_append, List.length_cons]
    omega

/-- C6 (confirmed): building `GET /c?d=a` with message-ID `0x1234` and no
payload yields exactly the header `40 01 12 34`, the Uri-Path option
`B1 63` (delta 11, length 1, value `c`), the Content-Format option
`12 01 04` (delta 1, length 2, value 260), and the Uri-Query option
`33 64 3D 61` (delta 3, length 3, value `d=a`) with no payload marker;
and, for every URI whose segments and queries have representable lengths,
the option bytes of every built request carry exactly one Content-Format
option, with value bytes `01 04` (260). -/
theorem coap_c6_build_message :
    buildMessage 1 [0x2F, 0x63, 0x3F, 0x64, 0x3D, 0x61] none 0x1234 =
      [0x40, 0x01, 0x12, 0x34, 0xB1, 0x63, 0x12, 0x01, 0x04, 0x33, 0x64, 0x3D, 0x61] ∧
    (∀ uri : List Nat,
      (∀ s ∈ pathSegments uri, s.length ≤ 65804) →
      (∀ q ∈ queryItems uri, q.length ≤ 65804) →
      (parseOpts 0 (encodeOptions uri)).filter (fun o => o.1 == 12) = [(12, [1, 4])]) := by
  constructor
  · decide
  · intro uri hseg hqry
    have hA := emitItems_length_le 11 (pathSegments uri) 0
    have hQ := emitItems_length_le 15 (queryItems uri) 12
    have hpd : 12 - (if (pathSegments uri).isEmpty then 0 else 11) < 13 := by
      split <;> omega
    have hp12 : (if (pathSegments uri).isEmpty then 0 else 11) +
        (12 - (if (pathSegments uri).isEmpty then 0 else 11)) = 12 := by
      split <;> omega
    have hh : (encodeOptionHeader
        (12 - (if (pathSegments uri).isEmpty then 0 else 11)) 2).length = 1 := by
      split <;> decide
    simp only [parseOpts, encodeOptions]
    obtain ⟨f0, hf0, hf0b⟩ : ∃ f0,
        (emitItems 11 (pathSegments uri) 0 ++
          (encodeOptionHeader (12 - (if (pathSegments uri).isEmpty then 0 else 11)) 2 ++
            [1, 4]) ++ emitItems 15 (queryItems uri) 12).length =
          (pathSegments uri).length + f0 ∧
        (queryItems uri).length + 3 ≤ f0 := by
      refine ⟨(emitItems 11 (pathSegments uri) 0 ++
          (encodeOptionHeader (12 - (if (pathSegments uri).isEmpty then 0 else 11)) 2 ++
            [1, 4]) ++ emitItems 15 (queryItems uri) 12).length -
          (pathSegments uri).length, ?_, ?_⟩ <;>
        simp only [List.length_append, List.length_cons, List.length_nil] <;>
        omega
    rw [hf0, List.append_assoc,
      parseOptsF_emit 11 (pathSegments uri) f0 0 _ (by omega) (by omega) hseg]
    obtain ⟨f1, hf1⟩ : ∃ f1, f0 = f1 + 1 := ⟨f0 - 1, by omega⟩
    rw [hf1, parseOptsF_step f1 _ _ 2 [1, 4] _ hpd (by omega) rfl, hp12]
    obtain ⟨f2, hf2⟩ : ∃ f2, f1 = (queryItems uri).length + f2 :=
      ⟨f1 - (queryItems uri).length, by omega⟩
    have heQ : emitItems 15 (queryItems uri) 12 =
        emitItems 15 (queryItems uri) 12 ++ [] := by
      rw [List.append_nil]
    rw [hf2, heQ, parseOptsF_emit 15 (queryItems uri) f2 12 [] (by omega) (by omega) hqry,
      parseOptsF_nil]
    have hS : ((pathSegments uri).map (fun s => ((11 : Nat), s))).filter
        (fun o => o.1 == 12) = [] := by
      apply List.filter_eq_nil_iff.mpr
      intro a ha
      simp only [List.mem_map] at ha
      obtain ⟨s, _, rfl⟩ := ha
      simp
    have hT : ((queryItems uri).map (fun s => ((15 : Nat), s))).filter
        (fun o => o.1 == 12) = [] := by
      apply List.filter_eq_nil_iff.mpr
      intro a ha
      simp only [List.mem_map] at ha
      obtain ⟨s, _, rfl⟩ := ha
      simp
    simp [List.filter_append, hS, hT, List.filter_cons]

/-- Witness for C6 at the URI `/c?d=a`. -/
theorem coap_c6_witness :
    (∀ s ∈ pathSegments [0x2F, 0x63, 0x3F, 0x64, 0x3D, 0x61], s.length ≤ 65804) ∧
    (∀ q ∈ queryItems [0x2F, 0x63, 0x3F, 0x64, 0x3D, 0x61], q.length ≤ 65804) ∧
    (parseOpts 0 (encodeOptions [0x2F, 0x63, 0x3F, 0x64, 0x3D, 0x61])).filter
      (fun o => o.1 == 12) = [(12, [1, 4])] :=
  ⟨by decide, by decide,
   coap_c6_build_message.2 [0x2F, 0x63, 0x3F, 0x64, 0x3D, 0x61] (by decide) (by decide)⟩


end KetiCt
